import Mathlib

/-!
Verification of the amp-extract MP3 recovery tool (`src/main.rs`).

The development shallowly embeds the three algorithmic pieces of the
program:

* `deobfs` — the periodic byte-swap deobfuscator (`fn deobfs`);
* `get_bit_rate` / `get_sample_rate` — the header field lookup tables;
* `extract_mp3` — the streaming MP3 frame synchronizer/extractor.

Bytes are modelled as `Nat` (the Rust code reads `u8` values, so every
byte is `< 256`; none of the embedded operations can overflow on such
inputs, and the bookkeeping theorems hold for arbitrary `Nat` entries).
Rust `u32` arithmetic in the frame-length computation stays below
`2 ^ 32` (the largest product is `144 * 320000`), so plain `Nat`
arithmetic agrees with it.

A Rust panic (reachable in `deobfs` via the `0..out.len() - 1` usize
underflow on an empty buffer) is modelled by returning `none`.
-/

namespace AmpExtract

/-- `const THRESHOLD: usize = 50 * (1 << 10);` -/
def THRESHOLD : Nat := 50 * (1 <<< 10)

/-- `static MP3_BIT_RATES: [u32; 14]` -/
def MP3_BIT_RATES : List Nat :=
  [32000, 40000, 48000, 56000, 64000, 80000, 96000, 112000, 128000, 160000,
   192000, 224000, 256000, 320000]

/-- `static MP3_SAMPLE_RATES: [u32; 3]` -/
def MP3_SAMPLE_RATES : List Nat := [44100, 48000, 3200]

/-- `u32::checked_sub`: `none` exactly when the subtraction would underflow. -/
def checkedSub (a b : Nat) : Option Nat :=
  if b ≤ a then some (a - b) else none

/-- `fn get_bit_rate(i: u32) -> Option<u32>`: checked subtraction of the
minimum index `0b0001`, then the bounds-checked table access
`MP3_BIT_RATES.get(i)`. -/
def get_bit_rate (i : Nat) : Option Nat :=
  match checkedSub i 0b0001 with
  | none => none
  | some j => MP3_BIT_RATES.get? j

/-- `fn get_sample_rate(i: u32) -> Option<u32>`: checked subtraction of the
minimum index `0b00`, then the bounds-checked table access
`MP3_SAMPLE_RATES.get(i)`. -/
def get_sample_rate (i : Nat) : Option Nat :=
  match checkedSub i 0b00 with
  | none => none
  | some j => MP3_SAMPLE_RATES.get? j

/-- `out.swap(i, i + 1)` on a vector, for adjacent indices.  In `deobfs`
the call is always in bounds (`i < out.len() - 1`); out of bounds this
total model is the identity, a region the embedded loop never reaches. -/
def swapAdj : List Nat → Nat → List Nat
  | [], _ => []
  | [a], _ => [a]
  | a :: b :: rest, 0 => b :: a :: rest
  | a :: b :: rest, n + 1 => a :: swapAdj (b :: rest) n

/-- `fn deobfs(buffer: &[u8], offset: usize) -> Vec<u8>`.

The Rust loop is `for i in 0..out.len() - 1 { if i % 4 == offset {
out.swap(i, i + 1); } }`.  On an empty buffer `out.len() - 1`
underflows `usize`, which panics (directly in debug builds; in release
builds the wrapped bound makes the first phase-matching `swap` index
out of bounds), modelled here as `none`.  Otherwise the swaps are
applied left to right, exactly as the `foldl` over `List.range`. -/
def deobfs (buffer : List Nat) (offset : Nat) : Option (List Nat) :=
  if buffer.length = 0 then none
  else
    some ((List.range (buffer.length - 1)).foldl
      (fun out i => if i % 4 = offset then swapAdj out i else out) buffer)

/-- The four header bytes interpreted as a big-endian `u32`:
`u32::from(header[0]) << 24 | ... | u32::from(header[3])`. -/
def headerNum (header : List Nat) : Nat :=
  header.getD 0 0 <<< 24 ||| header.getD 1 0 <<< 16 |||
  header.getD 2 0 <<< 8 ||| header.getD 3 0

/-- The header validation sequence of the `extract_mp3` loop (the chain of
`continue`s from the frame-sync test to the emphasis test), returning the
computed `frame_length` on full validation and `none` on any failure. -/
def checkHeader (header_num : Nat) : Option Nat :=
  -- frame sync
  if header_num &&& 0xFFE00000 ≠ 0xFFE00000 then none
  else
    -- MPEG version
    let mpeg_version := (header_num &&& 0x00180000) >>> 19
    if mpeg_version = 0b01 ∨ mpeg_version ≠ 0b11 then none
    else
      -- MPEG layer
      let mpeg_layer := (header_num &&& 0x00060000) >>> 17
      if mpeg_layer = 0b00 ∨ mpeg_layer ≠ 0b01 then none
      else
        -- bitrate
        let bit_rate_idx := (header_num &&& 0x0000F000) >>> 12
        if bit_rate_idx = 0b0000 ∨ bit_rate_idx = 0b1111 then none
        else
          match get_bit_rate bit_rate_idx with
          | none => none
          | some bit_rate =>
            -- sample rate
            let sample_rate_idx := (header_num &&& 0x00000C00) >>> 10
            if sample_rate_idx = 0b11 then none
            else
              match get_sample_rate sample_rate_idx with
              | none => none
              | some sample_rate =>
                -- padding?
                let has_padding := (header_num &&& 0x00000200) >>> 9 = 0b1
                -- emphasis
                let emphasis := header_num &&& 0x00000003
                if emphasis = 0b10 then none
                else
                  -- calculate frame length
                  some (144 * bit_rate / sample_rate +
                    if has_padding then 1 else 0)

/-- The `if !is_mp3 { if mp3_stream.len() > THRESHOLD { ... push ... } }`
block at the top of the `extract_mp3` loop: emit the accumulated run when
it exceeds the threshold.  `remaining_len` is `stream_iter.len()` at that
point. -/
def flushRun (total_stream_len remaining_len : Nat) (mp3_stream : List Nat)
    (out : List (List Nat × Nat)) : List (List Nat × Nat) :=
  if THRESHOLD < mp3_stream.length then
    out ++ [(mp3_stream, total_stream_len - remaining_len - mp3_stream.length)]
  else out

/-- The `loop { ... }` of `fn extract_mp3`, one recursive call per
iteration.  `fuel` only forces termination: every iteration consumes at
least one byte of `remaining`, so the initial fuel `s.length + 1`
supplied by `extract_mp3` can never run out before the stream does. -/
def extractLoop (total_stream_len : Nat) :
    Nat → List Nat → List Nat → Bool → List Nat →
    List (List Nat × Nat) → List (List Nat × Nat)
  | 0, _, _, _, _, out => out
  | fuel + 1, header, mp3_stream0, is_mp3, remaining, out0 =>
    -- flush a pending run, then clear it (both only when `!is_mp3`)
    let out := if is_mp3 then out0
               else flushRun total_stream_len remaining.length mp3_stream0 out0
    let mp3_stream := if is_mp3 then mp3_stream0 else []
    match remaining with
    | [] => out  -- `None => break` while reading the next header byte
    | x :: rest =>
      -- shift one byte into the 4-byte header window
      let header := header.drop 1 ++ [x]
      match checkHeader (headerNum header) with
      | none => extractLoop total_stream_len fuel header mp3_stream false rest out
      | some frame_length =>
        -- append frame
        let frame_data := rest.take (frame_length - 4)
        if frame_data.length < frame_length - 4 then out  -- truncated frame
        else
          let mp3_stream := mp3_stream ++ header ++ frame_data
          let rest := rest.drop (frame_length - 4)
          -- prepare for next scan-read
          let data := rest.take 3
          if data.length < 3 then out  -- not enough bytes to refill
          else extractLoop total_stream_len fuel ([0] ++ data) mp3_stream true
            (rest.drop 3) out

/-- `fn extract_mp3(s: Vec<u8>) -> Vec<(Vec<u8>, usize)>`. -/
def extract_mp3 (s : List Nat) : List (List Nat × Nat) :=
  let total_stream_len := s.length
  if (s.take 3).length < 3 then []
  else
    extractLoop total_stream_len (total_stream_len + 1)
      ([0] ++ s.take 3) [] false (s.drop 3) []

/-! ### Verification-side definitions (not part of the source embedding) -/

/-- The `deobfs` pass as a fold of adjacent swaps over an explicit index
list (used to reason about which indices swap). -/
def applySwaps (l : List Nat) (is : List Nat) : List Nat :=
  is.foldl swapAdj l

/-- A correctly reported candidate run: reported offset at least 4 (the
three refill bytes plus one look-ahead byte consumed past the run before
the flush), length above the threshold, and the run's bytes are exactly
the contiguous slice of the scanned buffer starting at `o - 4`. -/
def RunAt (s r : List Nat) (o : Nat) : Prop :=
  4 ≤ o ∧ THRESHOLD < r.length ∧ o - 4 + r.length ≤ s.length ∧
    r = (s.drop (o - 4)).take r.length

/-- Invariant for the accumulator of emitted runs: every entry is a
correctly-placed run, runs appear left to right without overlap, and all
of them end at or before position `B`. -/
def OutOk (s : List Nat) (B : Nat) (out : List (List Nat × Nat)) : Prop :=
  (∀ p ∈ out, RunAt s p.1 p.2) ∧
  List.Chain' (fun a b => a.2 + a.1.length ≤ b.2) out ∧
  (∀ p ∈ out, p.2 - 4 + p.1.length ≤ B)

/-- What the extractor guarantees about its final result. -/
def ResOk (s : List Nat) (res : List (List Nat × Nat)) : Prop :=
  (∀ p ∈ res, RunAt s p.1 p.2) ∧
  List.Chain' (fun a b => a.2 + a.1.length ≤ b.2) res

/-- The earliest position at which a future run could start, given the
current scan position `c` and pending-run state; emitted runs all end at
or before it. -/
def runStartBound (c : Nat) (run : List Nat) (is_mp3 : Bool) : Nat :=
  if run = [] then c - 3 else c - (if is_mp3 then 3 else 4) - run.length

/-- A 96-byte MP3 frame: bit-rate index 1 (32000 bit/s), sample-rate
index 1 (48000 Hz), no padding; `144 * 32000 / 48000 = 96`. -/
def f96 : List Nat := [0xFF, 0xFB, 0x14, 0x00] ++ List.replicate 92 0

/-- A 97-byte MP3 frame: as `f96` but with the padding bit set. -/
def f97 : List Nat := [0xFF, 0xFB, 0x16, 0x00] ++ List.replicate 93 0

/-- A 14400-byte MP3 frame: bit-rate index 14 (320000 bit/s), sample-rate
index 2 (3200 Hz), no padding; `144 * 320000 / 3200 = 14400`. -/
def f14400 : List Nat := [0xFF, 0xFB, 0xE8, 0x00] ++ List.replicate 14396 0

/-- A stream of exactly `50 * 1024 + 1 = 51201` bytes of valid
back-to-back frames ending at end-of-stream:
`50 * 96 + 33 * 97 + 3 * 14400 = 51201`. -/
def c3stream : List Nat :=
  (List.replicate 50 f96 ++ List.replicate 33 f97 ++
    List.replicate 3 f14400).flatten

/-- The 57600-byte run of four 14400-byte frames. -/
def c2run : List Nat := (List.replicate 4 f14400).flatten

/-- 100 bytes of non-matching noise, a 57600-byte run of valid frames,
then 8 bytes of trailing noise (so the run is terminated, and flushed,
before end-of-stream). -/
def c2buf : List Nat :=
  List.replicate 100 0 ++ c2run ++ List.replicate 8 0


/-! ### The deobfuscator: swap and fold lemmas -/

theorem swapAdj_nil (i : Nat) : swapAdj [] i = [] := rfl

theorem swapAdj_single (a i : Nat) : swapAdj [a] i = [a] := by
  cases i <;> rfl

theorem swapAdj_cons_cons_zero (a b : Nat) (l : List Nat) :
    swapAdj (a :: b :: l) 0 = b :: a :: l := rfl

theorem swapAdj_cons_succ (a n : Nat) (l : List Nat) :
    swapAdj (a :: l) (n + 1) = a :: swapAdj l n := by
  cases l <;> rfl

theorem swapAdj_length : ∀ (l : List Nat) (i : Nat), (swapAdj l i).length = l.length
  | [], _ => rfl
  | [_], i => by rw [swapAdj_single]
  | _ :: _ :: _, 0 => rfl
  | a :: b :: rest, n + 1 => by
    rw [swapAdj_cons_succ]
    simp [swapAdj_length (b :: rest) n]

theorem swapAdj_swapAdj : ∀ (l : List Nat) (i : Nat), swapAdj (swapAdj l i) i = l
  | [], _ => rfl
  | [_], i => by rw [swapAdj_single, swapAdj_single]
  | _ :: _ :: _, 0 => rfl
  | a :: b :: rest, n + 1 => by
    rw [swapAdj_cons_succ, swapAdj_cons_succ, swapAdj_swapAdj (b :: rest) n]

theorem swapAdj_comm : ∀ (l : List Nat) (i j : Nat), i + 2 ≤ j →
    swapAdj (swapAdj l i) j = swapAdj (swapAdj l j) i
  | [], _, _, _ => by simp [swapAdj_nil]
  | [a], _, _, _ => by simp [swapAdj_single]
  | a :: b :: rest, 0, j, h => by
    obtain ⟨j', rfl⟩ : ∃ j', j = j' + 2 := ⟨j - 2, by omega⟩
    rw [swapAdj_cons_cons_zero, swapAdj_cons_succ, swapAdj_cons_succ,
      swapAdj_cons_succ, swapAdj_cons_succ, swapAdj_cons_cons_zero]
  | a :: b :: rest, i + 1, j, h => by
    obtain ⟨j', rfl⟩ : ∃ j', j = j' + 1 := ⟨j - 1, by omega⟩
    rw [swapAdj_cons_succ, swapAdj_cons_succ, swapAdj_cons_succ, swapAdj_cons_succ,
      swapAdj_comm (b :: rest) i j' (by omega)]

theorem applySwaps_nil (l : List Nat) : applySwaps l [] = l := rfl

theorem applySwaps_cons (l : List Nat) (i : Nat) (is : List Nat) :
    applySwaps l (i :: is) = applySwaps (swapAdj l i) is := rfl

theorem applySwaps_length (l : List Nat) : ∀ (is : List Nat),
    (applySwaps l is).length = l.length := by
  intro is
  induction is generalizing l with
  | nil => rfl
  | cons i is ih => rw [applySwaps_cons, ih, swapAdj_length]

theorem swapAdj_applySwaps_comm (l : List Nat) (i : Nat) : ∀ (is : List Nat),
    (∀ j ∈ is, i + 2 ≤ j) → applySwaps (swapAdj l i) is = swapAdj (applySwaps l is) i := by
  intro is
  induction is generalizing l with
  | nil => intro _; rfl
  | cons j is ih =>
    intro h
    rw [applySwaps_cons, swapAdj_comm l i j (h j (by simp)), applySwaps_cons,
      ih (swapAdj l j) (fun k hk => h k (by simp [hk]))]

theorem applySwaps_applySwaps (l : List Nat) : ∀ (is : List Nat),
    is.Pairwise (fun a b => a + 2 ≤ b) →
    applySwaps (applySwaps l is) is = l := by
  intro is
  induction is generalizing l with
  | nil => intro _; rfl
  | cons i is ih =>
    intro h
    rw [List.pairwise_cons] at h
    rw [applySwaps_cons, applySwaps_cons, swapAdj_applySwaps_comm _ _ _ h.1,
      swapAdj_applySwaps_comm _ _ _ h.1, swapAdj_applySwaps_comm _ _ _ h.1,
      swapAdj_swapAdj, ih _ h.2]

theorem pairwise_gap (n p : Nat) :
    ((List.range n).filter (fun i => i % 4 == p)).Pairwise (fun a b => a + 2 ≤ b) := by
  refine ((List.pairwise_lt_range n).filter _).imp_of_mem ?_
  intro a b ha hb hlt
  have ha' := List.of_mem_filter ha
  have hb' := List.of_mem_filter hb
  simp only [beq_iff_eq] at ha' hb'
  omega

theorem foldl_if_filter (p : Nat) : ∀ (is : List Nat) (l : List Nat),
    is.foldl (fun out i => if i % 4 = p then swapAdj out i else out) l =
      applySwaps l (is.filter (fun i => i % 4 == p)) := by
  intro is
  induction is with
  | nil => intro l; rfl
  | cons i is ih =>
    intro l
    by_cases h : i % 4 = p <;>
      simp [List.foldl_cons, List.filter_cons, h, ih, applySwaps_cons]


theorem deobfs_empty (p : Nat) : deobfs [] p = none := rfl

theorem deobfs_ne_nil (b : List Nat) (p : Nat) (h : b ≠ []) :
    deobfs b p = some (applySwaps b
      ((List.range (b.length - 1)).filter (fun i => i % 4 == p))) := by
  have hb : b.length ≠ 0 := by simpa using h
  rw [deobfs, if_neg hb, foldl_if_filter]

theorem deobfs_isSome_length {b : List Nat} {p : Nat} {x : List Nat}
    (h : deobfs b p = some x) : x.length = b.length := by
  rcases List.eq_nil_or_concat b with rfl | _
  · simp [deobfs_empty] at h
  · have hb : b ≠ [] := by rintro rfl; simp_all
    rw [deobfs_ne_nil b p hb] at h
    obtain rfl := Option.some.injEq .. ▸ h.symm
    exact (applySwaps_length _ _)

theorem deobfs_deobfs (b : List Nat) (p : Nat) (hb : b ≠ []) :
    (deobfs b p).bind (fun x => deobfs x p) = some b := by
  rw [deobfs_ne_nil b p hb, Option.some_bind]
  have hlen : (applySwaps b ((List.range (b.length - 1)).filter
      (fun i => i % 4 == p))).length = b.length := applySwaps_length _ _
  have hx : applySwaps b ((List.range (b.length - 1)).filter
      (fun i => i % 4 == p)) ≠ [] := by
    intro h0
    apply hb
    have := hlen
    rw [h0] at this
    exact List.length_eq_zero.mp this.symm
  rw [deobfs_ne_nil _ p hx, hlen, applySwaps_applySwaps _ _ (pairwise_gap _ p)]

theorem foldl_no_swap (p : Nat) : ∀ (is : List Nat) (l : List Nat),
    (∀ i ∈ is, ¬(i % 4 = p)) →
    is.foldl (fun out i => if i % 4 = p then swapAdj out i else out) l = l := by
  intro is
  induction is with
  | nil => intro l _; rfl
  | cons i is ih =>
    intro l h
    rw [List.foldl_cons, if_neg (h i (by simp))]
    exact ih l (fun j hj => h j (by simp [hj]))


/-! ### Bit-field characterizations of the header checks -/

theorem and_shiftLeft_mask (n m k : Nat) :
    n &&& (m <<< k) = ((n >>> k) &&& m) <<< k := by
  apply Nat.eq_of_testBit_eq
  intro i
  simp only [Nat.testBit_and, Nat.testBit_shiftLeft, Nat.testBit_shiftRight]
  by_cases h : k ≤ i
  · simp [ge_iff_le, h, Nat.add_sub_cancel' h, Bool.and_comm]
  · simp [ge_iff_le, h]

theorem shiftLeft_inj (a b k : Nat) : a <<< k = b <<< k ↔ a = b := by
  simp only [Nat.shiftLeft_eq]
  exact ⟨fun h => Nat.eq_of_mul_eq_mul_right (Nat.pos_pow_of_pos k (by norm_num)) h,
    fun h => by rw [h]⟩

theorem shiftLeft_shiftRight_cancel (a k : Nat) : (a <<< k) >>> k = a := by
  rw [Nat.shiftLeft_eq, Nat.shiftRight_eq_div_pow]
  exact Nat.mul_div_cancel a (Nat.pos_pow_of_pos k (by norm_num))

theorem field_extract (n k w : Nat) :
    (n &&& ((2 ^ w - 1) <<< k)) >>> k = n / 2 ^ k % 2 ^ w := by
  rw [and_shiftLeft_mask, shiftLeft_shiftRight_cancel, Nat.and_pow_two_sub_one_eq_mod,
    Nat.shiftRight_eq_div_pow]

theorem mask_all_ones (n k w : Nat) :
    n &&& ((2 ^ w - 1) <<< k) = (2 ^ w - 1) <<< k ↔ n / 2 ^ k % 2 ^ w = 2 ^ w - 1 := by
  rw [and_shiftLeft_mask, shiftLeft_inj, Nat.and_pow_two_sub_one_eq_mod,
    Nat.shiftRight_eq_div_pow]

theorem get_bit_rate_isSome_iff : ∀ d, d < 16 →
    ((get_bit_rate d).isSome = true ↔ 1 ≤ d ∧ d ≤ 14) := by decide

theorem get_sample_rate_isSome_iff : ∀ e, e < 4 →
    ((get_sample_rate e).isSome = true ↔ e ≤ 2) := by decide

theorem checkHeader_isSome_iff (n : Nat) :
    (checkHeader n).isSome = true ↔
      (n / 2 ^ 21 % 2 ^ 11 = 2047 ∧ n / 2 ^ 19 % 4 = 3 ∧ n / 2 ^ 17 % 4 = 1 ∧
       (1 ≤ n / 2 ^ 12 % 16 ∧ n / 2 ^ 12 % 16 ≤ 14) ∧ n / 2 ^ 10 % 4 ≤ 2 ∧
       n % 4 ≠ 2) := by
  have h21 : (n &&& 0xFFE00000 = 0xFFE00000) ↔ n / 2 ^ 21 % 2 ^ 11 = 2047 := by
    have := mask_all_ones n 21 11
    norm_num at this ⊢
    exact this
  have h19 : (n &&& 0x00180000) >>> 19 = n / 2 ^ 19 % 4 := by
    have := field_extract n 19 2
    norm_num at this ⊢
    exact this
  have h17 : (n &&& 0x00060000) >>> 17 = n / 2 ^ 17 % 4 := by
    have := field_extract n 17 2
    norm_num at this ⊢
    exact this
  have h12 : (n &&& 0x0000F000) >>> 12 = n / 2 ^ 12 % 16 := by
    have := field_extract n 12 4
    norm_num at this ⊢
    exact this
  have h10 : (n &&& 0x00000C00) >>> 10 = n / 2 ^ 10 % 4 := by
    have := field_extract n 10 2
    norm_num at this ⊢
    exact this
  have h3 : n &&& 0x00000003 = n % 4 := by
    have := Nat.and_pow_two_sub_one_eq_mod n 2
    norm_num at this ⊢
    exact this
  have hd : n / 2 ^ 12 % 16 < 16 := Nat.mod_lt _ (by norm_num)
  have he : n / 2 ^ 10 % 4 < 4 := Nat.mod_lt _ (by norm_num)
  simp only [checkHeader, ne_eq, h21, h19, h17, h12, h10, h3]
  by_cases hs : n / 2 ^ 21 % 2 ^ 11 = 2047
  · simp only [hs, not_true_eq_false, if_false]
    by_cases hv : n / 2 ^ 19 % 4 = 3
    · have hv1 : ¬(n / 2 ^ 19 % 4 = 1 ∨ ¬n / 2 ^ 19 % 4 = 3) := by omega
      simp only [if_neg hv1]
      by_cases hl : n / 2 ^ 17 % 4 = 1
      case neg =>
        have hl1 : n / 2 ^ 17 % 4 = 0 ∨ ¬n / 2 ^ 17 % 4 = 1 := Or.inr hl
        simp only [if_pos hl1, Option.isSome_none]
        exact iff_of_false (by simp) (by rintro ⟨-, -, h, -⟩; exact hl h)
      case pos =>
        have hl1 : ¬(n / 2 ^ 17 % 4 = 0 ∨ ¬n / 2 ^ 17 % 4 = 1) := by omega
        simp only [if_neg hl1]
        by_cases hb0 : n / 2 ^ 12 % 16 = 0 ∨ n / 2 ^ 12 % 16 = 15
        · rcases hbr : get_bit_rate (n / 2 ^ 12 % 16) with _ | br <;>
            simp only [if_pos hb0, Option.isSome_none] <;> simp <;> omega
        · simp only [if_neg hb0]
          rcases hbr : get_bit_rate (n / 2 ^ 12 % 16) with _ | br
          · have := (get_bit_rate_isSome_iff _ hd)
            rw [hbr] at this
            simp at this
            omega
          · have hbrange : 1 ≤ n / 2 ^ 12 % 16 ∧ n / 2 ^ 12 % 16 ≤ 14 := by
              have := (get_bit_rate_isSome_iff _ hd)
              rw [hbr] at this
              simpa using this.mp rfl
            by_cases hsr3 : n / 2 ^ 10 % 4 = 3
            · simp only [if_pos hsr3, Option.isSome_none]
              simp
              omega
            · simp only [if_neg hsr3]
              rcases hsr : get_sample_rate (n / 2 ^ 10 % 4) with _ | sr
              · have := (get_sample_rate_isSome_iff _ he)
                rw [hsr] at this
                simp at this
                omega
              · by_cases hemph : n % 4 = 2
                · simp [hemph]
                · simp [hemph, hs, hv, hl, hbrange]
                  omega
    · have hv1 : n / 2 ^ 19 % 4 = 1 ∨ ¬n / 2 ^ 19 % 4 = 3 := Or.inr hv
      simp only [if_pos hv1, Option.isSome_none]
      exact iff_of_false (by simp) (by rintro ⟨-, h, -⟩; exact hv h)
  · rw [if_pos hs]
    exact iff_of_false (by simp) (by rintro ⟨h, -⟩; exact hs h)


theorem get_bit_rate_mem {i br : Nat} (h : get_bit_rate i = some br) :
    br ∈ MP3_BIT_RATES := by
  rw [get_bit_rate] at h
  rcases hcs : checkedSub i 0b0001 with _ | j <;> rw [hcs] at h
  · cases h
  · exact List.get?_mem h

theorem get_sample_rate_mem {i sr : Nat} (h : get_sample_rate i = some sr) :
    sr ∈ MP3_SAMPLE_RATES := by
  rw [get_sample_rate] at h
  rcases hcs : checkedSub i 0b00 with _ | j <;> rw [hcs] at h
  · cases h
  · exact List.get?_mem h

theorem checkHeader_some_spec {n flen : Nat} (h : checkHeader n = some flen) :
    ∃ br sr, get_bit_rate ((n &&& 0x0000F000) >>> 12) = some br ∧
      get_sample_rate ((n &&& 0x00000C00) >>> 10) = some sr ∧
      flen = 144 * br / sr + (if (n &&& 0x00000200) >>> 9 = 1 then 1 else 0) := by
  rw [checkHeader] at h
  simp only [] at h
  split at h
  · cases h
  · split at h
    · cases h
    · split at h
      · cases h
      · split at h
        · cases h
        · rcases hbr : get_bit_rate ((n &&& 0x0000F000) >>> 12) with _ | br <;>
            rw [hbr] at h
          · cases h
          · simp only [] at h
            split at h
            · cases h
            · rcases hsr : get_sample_rate ((n &&& 0x00000C00) >>> 10) with _ | sr <;>
                rw [hsr] at h
              · cases h
              · simp only [] at h
                split at h
                · cases h
                · exact ⟨br, sr, rfl, rfl, (Option.some_inj.mp h).symm⟩

theorem checkHeader_96_le {n flen : Nat} (h : checkHeader n = some flen) :
    96 ≤ flen := by
  obtain ⟨br, sr, hbr, hsr, hflen⟩ := checkHeader_some_spec h
  have hbr32 : 32000 ≤ br := by
    have hall : ∀ b ∈ MP3_BIT_RATES, 32000 ≤ b := by decide
    exact hall br (get_bit_rate_mem hbr)
  have hsr' : 0 < sr ∧ sr ≤ 48000 := by
    have hall : ∀ r ∈ MP3_SAMPLE_RATES, 0 < r ∧ r ≤ 48000 := by decide
    exact hall sr (get_sample_rate_mem hsr)
  have h1 : 144 * 32000 / sr ≤ 144 * br / sr :=
    Nat.div_le_div_right (Nat.mul_le_mul_left 144 hbr32)
  have h2 : 144 * 32000 / 48000 ≤ 144 * 32000 / sr :=
    Nat.div_le_div_left hsr'.2 hsr'.1
  have h3 : (96 : Nat) = 144 * 32000 / 48000 := by norm_num
  omega

/-! ### The extractor loop invariant -/

theorem slice_append (s : List Nat) (a m k : Nat) :
    (s.drop a).take m ++ (s.drop (a + m)).take k = (s.drop a).take (m + k) := by
  rw [List.take_add, List.drop_drop]

theorem window_step {s header : List Nat} {c x : Nat}
    (h3 : 3 ≤ c) (hx : s[c]? = some x)
    (hh : header.drop 1 = (s.drop (c - 3)).take 3) :
    header.drop 1 ++ [x] = (s.drop (c - 3)).take 4 := by
  rw [hh]
  conv_rhs => rw [show (4 : Nat) = 3 + 1 from rfl, List.take_succ]
  rw [List.getElem?_drop, show c - 3 + 3 = c by omega, hx]
  rfl

theorem window_shift {s header : List Nat} {c x : Nat}
    (h3 : 3 ≤ c) (hx : s[c]? = some x)
    (hh : header.drop 1 = (s.drop (c - 3)).take 3) :
    (header.drop 1 ++ [x]).drop 1 = (s.drop (c + 1 - 3)).take 3 := by
  rw [window_step h3 hx hh, List.drop_take, List.drop_drop,
    show c - 3 + 1 = c + 1 - 3 by omega]

theorem window_len {s header : List Nat} {c x : Nat}
    (h3 : 3 ≤ c) (hc : c < s.length) (hx : s[c]? = some x)
    (hh : header.drop 1 = (s.drop (c - 3)).take 3) :
    (header.drop 1 ++ [x]).length = 4 := by
  rw [window_step h3 hx hh, List.length_take, List.length_drop]
  omega

theorem OutOk_mono {s : List Nat} {B B' : Nat} {out : List (List Nat × Nat)}
    (h : OutOk s B out) (hle : B ≤ B') : OutOk s B' out :=
  ⟨h.1, h.2.1, fun p hp => le_trans (h.2.2 p hp) hle⟩

theorem flush_ok (s : List Nat) (rem_len : Nat) {c : Nat} {run : List Nat}
    {out : List (List Nat × Nat)} {B : Nat}
    (hrl : rem_len = s.length - c) (hcle : c ≤ s.length)
    (hF : run = [] ∨ (run.length + 4 ≤ c ∧
      run = (s.drop (c - 4 - run.length)).take run.length))
    (hout : OutOk s B out)
    (hB : B ≤ runStartBound c run false) :
    OutOk s (c - 3) (flushRun s.length rem_len run out) := by
  rcases hF with rfl | ⟨h4c, hsl⟩
  · rw [flushRun, if_neg (by simp [THRESHOLD])]
    refine OutOk_mono hout (le_trans hB ?_)
    rw [runStartBound, if_pos rfl]
  · by_cases hrne : run = []
    · rw [flushRun, if_neg (by simp [hrne, THRESHOLD])]
      refine OutOk_mono hout (le_trans hB ?_)
      rw [runStartBound, if_pos hrne]
    · have hBs : B ≤ c - 4 - run.length := by
        rw [runStartBound, if_neg hrne] at hB
        simpa using hB
      rw [flushRun]
      by_cases hth : THRESHOLD < run.length
      · rw [if_pos hth]
        have hoff : s.length - rem_len - run.length = c - run.length := by omega
        rw [hoff]
        refine ⟨?_, ?_, ?_⟩
        · intro p hp
          rcases List.mem_append.mp hp with hp | hp
          · exact hout.1 p hp
          · rw [List.mem_singleton.mp hp]
            show RunAt s run (c - run.length)
            refine ⟨by omega, hth, by omega, ?_⟩
            rw [show c - run.length - 4 = c - 4 - run.length by omega]
            exact hsl
        · rw [List.chain'_append]
          refine ⟨hout.2.1, List.chain'_singleton _, ?_⟩
          intro a ha y hy
          have hamem : a ∈ out := List.mem_of_mem_getLast? ha
          have h1 : a.2 - 4 + a.1.length ≤ B := hout.2.2 a hamem
          have h2 : 4 ≤ a.2 := (hout.1 a hamem).1
          have hy' : y = (run, c - run.length) := by
            simp only [List.head?_cons, Option.mem_def, Option.some_inj] at hy
            exact hy.symm
          rw [hy']
          show a.2 + a.1.length ≤ c - run.length
          omega
        · intro p hp
          rcases List.mem_append.mp hp with hp | hp
          · exact le_trans (hout.2.2 p hp) (by omega)
          · rw [List.mem_singleton.mp hp]
            show c - run.length - 4 + run.length ≤ c - 3
            omega
      · rw [if_neg hth]
        exact OutOk_mono hout (show B ≤ c - 3 by omega)

theorem extractLoop_zero (t : Nat) (header run : List Nat) (m : Bool)
    (rem : List Nat) (out : List (List Nat × Nat)) :
    extractLoop t 0 header run m rem out = out := rfl

theorem extractLoop_nil (t fuel : Nat) (header run : List Nat) (m : Bool)
    (out : List (List Nat × Nat)) :
    extractLoop t (fuel + 1) header run m [] out =
      if m then out else flushRun t 0 run out := by
  cases m <;> simp [extractLoop]

theorem extractLoop_step_invalid {header : List Nat} {x : Nat}
    (t fuel : Nat) (run : List Nat) (m : Bool) (rest : List Nat)
    (out : List (List Nat × Nat))
    (h : checkHeader (headerNum (header.drop 1 ++ [x])) = none) :
    extractLoop t (fuel + 1) header run m (x :: rest) out =
      extractLoop t fuel (header.drop 1 ++ [x]) (if m then run else []) false rest
        (if m then out else flushRun t (x :: rest).length run out) := by
  cases m <;> simp only [extractLoop, h, if_true, if_false]

theorem extractLoop_step_trunc {header : List Nat} {x : Nat} {flen : Nat}
    (t fuel : Nat) (run : List Nat) (m : Bool) (rest : List Nat)
    (out : List (List Nat × Nat))
    (h : checkHeader (headerNum (header.drop 1 ++ [x])) = some flen)
    (htr : (rest.take (flen - 4)).length < flen - 4) :
    extractLoop t (fuel + 1) header run m (x :: rest) out =
      if m then out else flushRun t (x :: rest).length run out := by
  cases m <;> simp only [extractLoop, h, if_true, if_false, if_pos htr]

theorem extractLoop_step_refill_break {header : List Nat} {x : Nat} {flen : Nat}
    (t fuel : Nat) (run : List Nat) (m : Bool) (rest : List Nat)
    (out : List (List Nat × Nat))
    (h : checkHeader (headerNum (header.drop 1 ++ [x])) = some flen)
    (htr : ¬ (rest.take (flen - 4)).length < flen - 4)
    (hrf : ((rest.drop (flen - 4)).take 3).length < 3) :
    extractLoop t (fuel + 1) header run m (x :: rest) out =
      if m then out else flushRun t (x :: rest).length run out := by
  cases m <;> simp only [extractLoop, h, if_true, if_false, if_neg htr, if_pos hrf]

theorem extractLoop_step_frame {header : List Nat} {x : Nat} {flen : Nat}
    (t fuel : Nat) (run : List Nat) (m : Bool) (rest : List Nat)
    (out : List (List Nat × Nat))
    (h : checkHeader (headerNum (header.drop 1 ++ [x])) = some flen)
    (htr : ¬ (rest.take (flen - 4)).length < flen - 4)
    (hrf : ¬ ((rest.drop (flen - 4)).take 3).length < 3) :
    extractLoop t (fuel + 1) header run m (x :: rest) out =
      extractLoop t fuel ([0] ++ (rest.drop (flen - 4)).take 3)
        ((if m then run else []) ++ (header.drop 1 ++ [x]) ++ rest.take (flen - 4))
        true ((rest.drop (flen - 4)).drop 3)
        (if m then out else flushRun t (x :: rest).length run out) := by
  cases m <;> simp only [extractLoop, h, if_true, if_false, if_neg htr, if_neg hrf]

theorem runStartBound_nil (c : Nat) (b : Bool) : runStartBound c [] b = c - 3 := by
  rw [runStartBound, if_pos rfl]

theorem runStartBound_false {run : List Nat} (c : Nat) (h : run ≠ []) :
    runStartBound c run false = c - 4 - run.length := by
  rw [runStartBound, if_neg h]
  norm_num

theorem runStartBound_true {run : List Nat} (c : Nat) (h : run ≠ []) :
    runStartBound c run true = c - 3 - run.length := by
  rw [runStartBound, if_neg h]
  norm_num

theorem extractLoop_ok (s : List Nat) : ∀ (fuel c : Nat) (header run : List Nat)
    (is_mp3 : Bool) (out : List (List Nat × Nat)) (B : Nat),
    3 ≤ c → c ≤ s.length →
    header.drop 1 = (s.drop (c - 3)).take 3 →
    (is_mp3 = true → run ≠ [] ∧ run.length + 3 ≤ c ∧
      run = (s.drop (c - 3 - run.length)).take run.length) →
    (is_mp3 = false → run = [] ∨ (run.length + 4 ≤ c ∧
      run = (s.drop (c - 4 - run.length)).take run.length)) →
    OutOk s B out →
    B ≤ runStartBound c run is_mp3 →
    ResOk s (extractLoop s.length fuel header run is_mp3 (s.drop c) out) := by
  intro fuel
  induction fuel with
  | zero =>
    intro c header run is_mp3 out B _ _ _ _ _ hout _
    exact ⟨hout.1, hout.2.1⟩
  | succ fuel ih =>
    intro c header run is_mp3 out B h3 hcle hh hT hF hout hB
    have hlendrop : (s.drop c).length = s.length - c := List.length_drop c s
    rcases hrem : s.drop c with _ | ⟨x, rest⟩
    case nil =>
      rw [extractLoop_nil]
      cases is_mp3 with
      | true => exact ⟨hout.1, hout.2.1⟩
      | false =>
        rw [if_neg (by simp)]
        have hof := flush_ok s 0
          (by rw [hrem] at hlendrop; simpa using hlendrop) hcle (hF rfl) hout
          (by simpa using hB)
        exact ⟨hof.1, hof.2.1⟩
    case cons =>
      rw [hrem] at hlendrop
      have hclt : c < s.length := by
        simp only [List.length_cons] at hlendrop
        omega
      have hx : s[c]? = some x := by
        have h0 := List.getElem?_drop s c 0
        rw [hrem] at h0
        simpa using h0.symm
      have hrest : rest = s.drop (c + 1) := by
        have h0 := List.tail_drop s c
        rw [hrem] at h0
        simpa using h0
      subst hrest
      -- facts about the state after the flush block
      have key1 : OutOk s (if is_mp3 then B else c - 3)
          (if is_mp3 then out
           else flushRun s.length (x :: s.drop (c + 1)).length run out) := by
        cases is_mp3 with
        | true => simpa using hout
        | false =>
          simp only [Bool.false_eq_true, if_false]
          exact flush_ok s (x :: s.drop (c + 1)).length
            (by simpa using hlendrop) hcle (hF rfl) hout (by simpa using hB)
      have key2 : (if is_mp3 then run else []) = [] ∨
          ((if is_mp3 then run else []) ≠ [] ∧
           (if is_mp3 then run else []).length + 3 ≤ c ∧
           (if is_mp3 then run else []) =
             (s.drop (c - 3 - (if is_mp3 then run else []).length)).take
               (if is_mp3 then run else []).length) := by
        cases is_mp3 with
        | true =>
          simp only [if_true]
          exact Or.inr (hT rfl)
        | false => exact Or.inl (by simp)
      have key3 : (if is_mp3 then B else c - 3) ≤
          c - 3 - (if is_mp3 then run else []).length := by
        cases is_mp3 with
        | true =>
          obtain ⟨hne, -, -⟩ := hT rfl
          rw [runStartBound_true c hne] at hB
          simpa using hB
        | false => simp
      rcases hch : checkHeader (headerNum (header.drop 1 ++ [x])) with _ | flen
      · -- invalid header: slide the window one byte
        rw [extractLoop_step_invalid _ _ _ _ _ _ hch]
        refine ih (c + 1) _ _ false _ _ (by omega) (by omega)
          (window_shift h3 hx hh) (by simp) ?_ key1 ?_
        · intro _
          rcases key2 with h0 | ⟨-, hlen3, hsl⟩
          · exact Or.inl h0
          · refine Or.inr ⟨by omega, ?_⟩
            rw [show c + 1 - 4 - (if is_mp3 then run else []).length =
              c - 3 - (if is_mp3 then run else []).length by omega]
            exact hsl
        · rcases key2 with h0 | ⟨hne, hlen3, -⟩
          · rw [h0, runStartBound_nil]
            refine le_trans key3 ?_
            rw [h0]
            simp only [List.length_nil]
            omega
          · rw [runStartBound_false _ hne]
            refine le_trans key3 (by omega)
      · -- valid header
        have h96 : 96 ≤ flen := checkHeader_96_le hch
        by_cases htr : ((s.drop (c + 1)).take (flen - 4)).length < flen - 4
        · rw [extractLoop_step_trunc _ _ _ _ _ _ hch htr]
          cases is_mp3 with
          | true => exact ⟨key1.1, key1.2.1⟩
          | false =>
            have := key1
            simp only [Bool.false_eq_true, if_false] at this ⊢
            exact ⟨this.1, this.2.1⟩
        · by_cases hrf : (((s.drop (c + 1)).drop (flen - 4)).take 3).length < 3
          · rw [extractLoop_step_refill_break _ _ _ _ _ _ hch htr hrf]
            cases is_mp3 with
            | true => exact ⟨key1.1, key1.2.1⟩
            | false =>
              have := key1
              simp only [Bool.false_eq_true, if_false] at this ⊢
              exact ⟨this.1, this.2.1⟩
          · rw [extractLoop_step_frame _ _ _ _ _ _ hch htr hrf]
            have hkle : flen - 4 ≤ (s.drop (c + 1)).length := by
              simp only [List.length_take] at htr
              omega
            have h3le : 3 ≤ ((s.drop (c + 1)).drop (flen - 4)).length := by
              simp only [List.length_take] at hrf
              omega
            have hwin : header.drop 1 ++ [x] = (s.drop (c - 3)).take 4 :=
              window_step h3 hx hh
            have hwl : (header.drop 1 ++ [x]).length = 4 := window_len h3 hclt hx hh
            have hfdlen : ((s.drop (c + 1)).take (flen - 4)).length = flen - 4 := by
              rw [List.length_take]
              omega
            have hrun2 : (if is_mp3 then run else []) ++
                (header.drop 1 ++ [x]) ++ (s.drop (c + 1)).take (flen - 4) =
                (s.drop (c - 3 - (if is_mp3 then run else []).length)).take
                  ((if is_mp3 then run else []).length + flen) := by
              rw [List.append_assoc, hwin]
              have hseg : (s.drop (c - 3)).take 4 ++ (s.drop (c + 1)).take (flen - 4) =
                  (s.drop (c - 3)).take flen := by
                have h0 := slice_append s (c - 3) 4 (flen - 4)
                rw [show c - 3 + 4 = c + 1 by omega] at h0
                rw [h0, show 4 + (flen - 4) = flen by omega]
              rw [hseg]
              rcases key2 with h0 | ⟨-, hlen3, hsl⟩
              · rw [h0]
                simp only [List.nil_append, List.length_nil, Nat.zero_add, Nat.sub_zero]
              · conv_lhs => rw [hsl]
                have h0 := slice_append s (c - 3 - (if is_mp3 then run else []).length)
                  (if is_mp3 then run else []).length flen
                rw [show c - 3 - (if is_mp3 then run else []).length +
                  (if is_mp3 then run else []).length = c - 3 by omega] at h0
                exact h0
            have hrun2len : ((if is_mp3 then run else []) ++
                (header.drop 1 ++ [x]) ++ (s.drop (c + 1)).take (flen - 4)).length =
                (if is_mp3 then run else []).length + flen := by
              simp only [List.length_append, hwl, hfdlen]
              omega
            rw [List.drop_drop, List.drop_drop,
              show c + 1 + (flen - 4) + 3 = c + flen by omega]
            have hcflen : c + flen ≤ s.length := by
              rw [List.length_drop, List.length_drop] at h3le
              omega
            refine ih (c + flen) _ _ true _ _ (by omega) hcflen ?_ ?_ (by simp) key1 ?_
            · -- header invariant for the refilled window
              rw [List.drop_append_of_le_length (by simp),
                show c + 1 + (flen - 4) = c + flen - 3 by omega]
              simp
            · -- run invariant
              intro _
              refine ⟨?_, ?_, ?_⟩
              · intro hcon
                have := congrArg List.length hcon
                rw [hrun2len] at this
                simp at this
                omega
              · rw [hrun2len]
                rcases key2 with h0 | ⟨-, hlen3, -⟩
                · rw [h0]
                  simp only [List.length_nil]
                  omega
                · omega
              · rw [hrun2len,
                  show c + flen - 3 - ((if is_mp3 then run else []).length + flen) =
                    c - 3 - (if is_mp3 then run else []).length by omega]
                exact hrun2
            · -- bound for the recursive call
              have hne2 : (if is_mp3 then run else []) ++
                  (header.drop 1 ++ [x]) ++ (s.drop (c + 1)).take (flen - 4) ≠ [] := by
                intro hcon
                have := congrArg List.length hcon
                rw [hrun2len] at this
                simp at this
                omega
              rw [runStartBound_true _ hne2, hrun2len,
                show c + flen - 3 - ((if is_mp3 then run else []).length + flen) =
                  c - 3 - (if is_mp3 then run else []).length by omega]
              exact key3

theorem extract_mp3_ok (s : List Nat) : ResOk s (extract_mp3 s) := by
  rw [extract_mp3]
  by_cases h : (s.take 3).length < 3
  · rw [if_pos h]
    exact ⟨by simp, List.chain'_nil⟩
  · rw [if_neg h]
    have h3 : 3 ≤ s.length := by
      simp only [List.length_take] at h
      omega
    refine extractLoop_ok s (s.length + 1) 3 _ _ false _ 0 (by omega) h3 ?_
      (by simp) (fun _ => Or.inl rfl) ⟨by simp, List.chain'_nil, by simp⟩ (by omega)
    simp


/-! ### Symbolic execution of the loop on structured streams -/

theorem flushRun_nil (t rem_len : Nat) (out : List (List Nat × Nat)) :
    flushRun t rem_len [] out = out := by
  rw [flushRun, if_neg (by simp [THRESHOLD])]

theorem ite_run_eq {r : List Nat} (m : Bool) (hm : m = false → r = []) :
    (if m then r else []) = r := by
  cases m
  · rw [hm rfl]
    simp
  · simp

theorem ite_out_eq {r : List Nat} (m : Bool) (hm : m = false → r = [])
    (t rem_len : Nat) (out : List (List Nat × Nat)) :
    (if m then out else flushRun t rem_len r out) = out := by
  cases m
  · rw [hm rfl, flushRun_nil]
    simp
  · simp

theorem extract_frame_step (t fuel : Nat) (f L r : List Nat) (w : Nat) (m : Bool)
    (out : List (List Nat × Nat))
    (hm : m = false → r = [])
    (hf4 : 4 ≤ f.length)
    (hck : checkHeader (headerNum (f.take 4)) = some f.length)
    (hL3 : 3 ≤ L.length) :
    extractLoop t (fuel + 1) (w :: f.take 3) r m (f.drop 3 ++ L) out =
      extractLoop t fuel (0 :: L.take 3) (r ++ f) true (L.drop 3) out := by
  have hd3 : f.drop 3 = f[3] :: f.drop 4 := List.drop_eq_getElem_cons (by omega)
  have hwin : (w :: f.take 3).drop 1 ++ [f[3]] = f.take 4 := by
    simp only [List.drop_one, List.tail_cons]
    conv_rhs => rw [show (4 : Nat) = 3 + 1 from rfl, List.take_succ]
    rw [List.getElem?_eq_getElem (by omega)]
    rfl
  have hck' : checkHeader (headerNum ((w :: f.take 3).drop 1 ++ [f[3]])) =
      some f.length := by rw [hwin]; exact hck
  have hrest : f.drop 4 ++ L = (f.drop 4 ++ L) := rfl
  have hd4len : (f.drop 4).length = f.length - 4 := List.length_drop 4 f
  have htake : (f.drop 4 ++ L).take (f.length - 4) = f.drop 4 := by
    rw [← hd4len, List.take_left]
  have hdrop : (f.drop 4 ++ L).drop (f.length - 4) = L := by
    rw [← hd4len, List.drop_left]
  have htr : ¬ ((f.drop 4 ++ L).take (f.length - 4)).length < f.length - 4 := by
    rw [htake, hd4len]
    omega
  have hrf : ¬ (((f.drop 4 ++ L).drop (f.length - 4)).take 3).length < 3 := by
    rw [hdrop, List.length_take]
    omega
  rw [hd3, List.cons_append, extractLoop_step_frame t fuel r m (f.drop 4 ++ L) out
    hck' htr hrf, htake, hdrop, ite_run_eq m hm, ite_out_eq m hm, hwin]
  simp only [List.cons_append, List.nil_append]
  rw [List.append_assoc, List.take_append_drop]

theorem extract_frame_last (t fuel : Nat) (f r : List Nat) (w : Nat) (m : Bool)
    (out : List (List Nat × Nat))
    (hm : m = false → r = [])
    (hf4 : 4 ≤ f.length)
    (hck : checkHeader (headerNum (f.take 4)) = some f.length) :
    extractLoop t (fuel + 1) (w :: f.take 3) r m (f.drop 3) out = out := by
  have hd3 : f.drop 3 = f[3] :: f.drop 4 := List.drop_eq_getElem_cons (by omega)
  have hwin : (w :: f.take 3).drop 1 ++ [f[3]] = f.take 4 := by
    simp only [List.drop_one, List.tail_cons]
    conv_rhs => rw [show (4 : Nat) = 3 + 1 from rfl, List.take_succ]
    rw [List.getElem?_eq_getElem (by omega)]
    rfl
  have hck' : checkHeader (headerNum ((w :: f.take 3).drop 1 ++ [f[3]])) =
      some f.length := by rw [hwin]; exact hck
  have hd4len : (f.drop 4).length = f.length - 4 := List.length_drop 4 f
  have htr : ¬ ((f.drop 4).take (f.length - 4)).length < f.length - 4 := by
    rw [← hd4len, List.take_length]
    omega
  have hrf : (((f.drop 4).drop (f.length - 4)).take 3).length < 3 := by
    rw [← hd4len, List.drop_length]
    simp
  rw [hd3, extractLoop_step_refill_break t fuel r m (f.drop 4) out hck' htr hrf,
    ite_out_eq m hm]

theorem extract_frame_chain (t : Nat) (fs : List (List Nat)) :
    ∀ (fuel : Nat) (L r : List Nat) (out : List (List Nat × Nat)),
    (∀ f ∈ fs, 4 ≤ f.length ∧ checkHeader (headerNum (f.take 4)) = some f.length) →
    3 ≤ L.length →
    extractLoop t (fuel + fs.length) (0 :: (fs.flatten ++ L).take 3) r true
      ((fs.flatten ++ L).drop 3) out =
      extractLoop t fuel (0 :: L.take 3) (r ++ fs.flatten) true (L.drop 3) out := by
  induction fs with
  | nil =>
    intro fuel L r out _ _
    simp
  | cons f fs ih =>
    intro fuel L r out hfs hL3
    obtain ⟨hf4, hck⟩ := hfs f (by simp)
    have hlen3 : 3 ≤ (fs.flatten ++ L).length := by
      rw [List.length_append]
      omega
    have htk : ((f :: fs).flatten ++ L).take 3 = f.take 3 := by
      rw [List.flatten_cons, List.append_assoc,
        List.take_append_of_le_length (by omega)]
    have hdp : ((f :: fs).flatten ++ L).drop 3 = f.drop 3 ++ (fs.flatten ++ L) := by
      rw [List.flatten_cons, List.append_assoc,
        List.drop_append_of_le_length (by omega)]
    rw [htk, hdp, show fuel + (f :: fs).length = (fuel + fs.length) + 1 by
      simp [List.length_cons]; omega]
    rw [extract_frame_step t (fuel + fs.length) f (fs.flatten ++ L) r 0 true out
      (by simp) hf4 hck hlen3]
    rw [ih (fuel) L (r ++ f) out (fun g hg => hfs g (by simp [hg])) hL3]
    rw [List.flatten_cons, ← List.append_assoc]

theorem extract_skip_zeros (t : Nat) : ∀ (m fuel : Nat) (rest : List Nat)
    (out : List (List Nat × Nat)),
    extractLoop t (fuel + m) [0, 0, 0, 0] [] false (List.replicate m 0 ++ rest) out =
      extractLoop t fuel [0, 0, 0, 0] [] false rest out := by
  intro m
  induction m with
  | zero =>
    intro fuel rest out
    simp
  | succ m ih =>
    intro fuel rest out
    rw [show fuel + (m + 1) = (fuel + m) + 1 by omega, List.replicate_succ,
      List.cons_append,
      extractLoop_step_invalid t (fuel + m) [] false (List.replicate m 0 ++ rest) out
        (by decide), flushRun_nil]
    simp only [if_neg (by simp : ¬ false = true)]
    exact ih fuel rest out

theorem length_le_flatten_length (fs : List (List Nat))
    (h : ∀ f ∈ fs, 4 ≤ f.length) : fs.length ≤ fs.flatten.length := by
  induction fs with
  | nil => simp
  | cons f fs ih =>
    have h4 := h f (by simp)
    have := ih (fun g hg => h g (by simp [hg]))
    simp only [List.length_cons, List.flatten_cons, List.length_append]
    omega

/-- Any stream that is exactly a non-empty chain of back-to-back valid
frames, ending at end-of-stream, produces no output at all: the loop
breaks at the header refill after the last frame without the threshold
check ever seeing the pending run. -/
theorem extract_frames_eos (fs : List (List Nat))
    (hfs : ∀ f ∈ fs, 4 ≤ f.length ∧
      checkHeader (headerNum (f.take 4)) = some f.length)
    (hne : fs ≠ []) :
    extract_mp3 fs.flatten = [] := by
  obtain ⟨f, rest, rfl⟩ : ∃ f rest, fs = f :: rest := by
    rcases fs with _ | ⟨f, rest⟩
    · exact absurd rfl hne
    · exact ⟨f, rest, rfl⟩
  obtain ⟨hf4, hfck⟩ := hfs f (by simp)
  rcases List.eq_nil_or_concat rest with rfl | ⟨mid, last, rfl⟩
  · -- a single frame
    have hs : ([f] : List (List Nat)).flatten = f := by simp
    rw [hs, extract_mp3]
    rw [if_neg (by rw [List.length_take]; omega)]
    simp only [List.singleton_append]
    rw [extract_frame_last f.length f.length f [] 0 false []
      (fun _ => rfl) hf4 hfck]
  · -- at least two frames
    simp only [List.concat_eq_append] at hfs ⊢
    obtain ⟨hl4, hlck⟩ := hfs last (by simp)
    have hmid : ∀ g ∈ mid, 4 ≤ g.length ∧
        checkHeader (headerNum (g.take 4)) = some g.length :=
      fun g hg => hfs g (by simp [hg])
    have hmidle : mid.length ≤ mid.flatten.length :=
      length_le_flatten_length mid (fun g hg => (hmid g hg).1)
    have hs : (f :: (mid ++ [last])).flatten = f ++ (mid.flatten ++ last) := by
      simp
    rw [hs, extract_mp3]
    have hR3 : 3 ≤ (mid.flatten ++ last).length := by
      rw [List.length_append]
      omega
    have htot : (f ++ (mid.flatten ++ last)).length =
        f.length + (mid.flatten.length + last.length) := by
      simp
    rw [if_neg (by rw [List.length_take, htot]; omega)]
    rw [List.take_append_of_le_length (by omega),
      List.drop_append_of_le_length (by omega)]
    simp only [List.singleton_append]
    rw [extract_frame_step _ _ f (mid.flatten ++ last) [] 0 false []
      (fun _ => rfl) hf4 hfck hR3]
    simp only [List.nil_append]
    obtain ⟨fl, hfl⟩ : ∃ fl, (f ++ (mid.flatten ++ last)).length =
        fl + mid.length := ⟨(f ++ (mid.flatten ++ last)).length - mid.length,
          by rw [htot]; omega⟩
    rw [hfl, extract_frame_chain _ mid fl last f [] hmid (by omega)]
    obtain ⟨fl2, hfl2⟩ : ∃ fl2, fl = fl2 + 1 := ⟨fl - 1, by
      rw [htot] at hfl
      omega⟩
    rw [hfl2, extract_frame_last _ fl2 last (f ++ mid.flatten) 0 true []
      (by simp) hl4 hlck]


theorem f96_length : f96.length = 96 := by
  rw [f96, List.length_append, List.length_replicate]
  rfl

theorem f97_length : f97.length = 97 := by
  rw [f97, List.length_append, List.length_replicate]
  rfl

theorem f14400_length : f14400.length = 14400 := by
  rw [f14400, List.length_append, List.length_replicate]
  rfl

theorem f96_spec : 4 ≤ f96.length ∧
    checkHeader (headerNum (f96.take 4)) = some f96.length := by
  have htk : f96.take 4 = [0xFF, 0xFB, 0x14, 0x00] := by
    rw [f96, List.take_append_of_le_length (by rfl)]
    rfl
  rw [f96_length, htk]
  exact ⟨by omega, by decide⟩

theorem f97_spec : 4 ≤ f97.length ∧
    checkHeader (headerNum (f97.take 4)) = some f97.length := by
  have htk : f97.take 4 = [0xFF, 0xFB, 0x16, 0x00] := by
    rw [f97, List.take_append_of_le_length (by rfl)]
    rfl
  rw [f97_length, htk]
  exact ⟨by omega, by decide⟩

theorem f14400_spec : 4 ≤ f14400.length ∧
    checkHeader (headerNum (f14400.take 4)) = some f14400.length := by
  have htk : f14400.take 4 = [0xFF, 0xFB, 0xE8, 0x00] := by
    rw [f14400, List.take_append_of_le_length (by rfl)]
    rfl
  rw [f14400_length, htk]
  exact ⟨by omega, by decide⟩

theorem c3stream_length : c3stream.length = 50 * 1024 + 1 := by
  rw [c3stream, List.length_flatten]
  simp only [List.map_append, List.map_replicate, List.sum_append,
    List.sum_replicate, f96_length, f97_length, f14400_length, smul_eq_mul]

theorem extract_c3stream_eq : extract_mp3 c3stream = [] := by
  rw [c3stream]
  refine extract_frames_eos _ ?_ (by simp)
  intro f hf
  simp only [List.mem_append, List.mem_replicate] at hf
  rcases hf with (⟨-, rfl⟩ | ⟨-, rfl⟩) | ⟨-, rfl⟩
  · exact f96_spec
  · exact f97_spec
  · exact f14400_spec


theorem c2run_length : c2run.length = 57600 := by
  rw [c2run, List.length_flatten]
  simp only [List.map_replicate, List.sum_replicate, f14400_length, smul_eq_mul]

theorem c2buf_length : c2buf.length = 57708 := by
  rw [c2buf]
  simp only [List.length_append, List.length_replicate, c2run_length]

theorem c2run_decomp : c2run = f14400 ++ (List.replicate 3 f14400).flatten := by
  rw [c2run, show (4 : Nat) = 3 + 1 from rfl, List.replicate_succ, List.flatten_cons]

theorem replicate3_flatten_length :
    ((List.replicate 3 f14400).flatten).length = 43200 := by
  rw [List.length_flatten]
  simp only [List.map_replicate, List.sum_replicate, f14400_length, smul_eq_mul]

theorem extract_c2buf_eq : extract_mp3 c2buf = [(c2run, 104)] := by
  have htk3 : c2buf.take 3 = [0, 0, 0] := by
    rw [c2buf, List.append_assoc,
      List.take_append_of_le_length (by rw [List.length_replicate]; omega),
      List.take_replicate]
    decide
  have hdp3 : c2buf.drop 3 =
      List.replicate 97 0 ++ (c2run ++ List.replicate 8 0) := by
    rw [c2buf, List.append_assoc,
      List.drop_append_of_le_length (by rw [List.length_replicate]; omega),
      List.drop_replicate]
  simp only [extract_mp3]
  rw [htk3, hdp3, c2buf_length]
  rw [if_neg (by decide)]
  simp only [List.singleton_append]
  rw [show (57708 + 1 : Nat) = 57612 + 97 by norm_num,
    extract_skip_zeros 57708 97 57612 (c2run ++ List.replicate 8 0) []]
  rw [show c2run ++ List.replicate 8 0 = 255 :: 251 :: 232 ::
      (f14400.drop 3 ++ ((List.replicate 3 f14400).flatten ++ List.replicate 8 0))
    from by
      rw [c2run_decomp, List.append_assoc, f14400]
      rfl]
  rw [show (57612 : Nat) = 57611 + 1 by norm_num,
    extractLoop_step_invalid 57708 57611 [] false _ [] (by decide)]
  simp only [Bool.false_eq_true, if_false, flushRun_nil, List.drop_one,
    List.tail_cons, List.cons_append, List.nil_append]
  rw [show (57611 : Nat) = 57610 + 1 by norm_num,
    extractLoop_step_invalid 57708 57610 [] false _ [] (by decide)]
  simp only [Bool.false_eq_true, if_false, flushRun_nil, List.drop_one,
    List.tail_cons, List.cons_append, List.nil_append]
  rw [show (57610 : Nat) = 57609 + 1 by norm_num,
    extractLoop_step_invalid 57708 57609 [] false _ [] (by decide)]
  simp only [Bool.false_eq_true, if_false, flushRun_nil, List.drop_one,
    List.tail_cons, List.cons_append, List.nil_append]
  rw [show ([0, 255, 251, 232] : List Nat) = 0 :: f14400.take 3 from by
    rw [f14400]
    rfl]
  rw [show (57609 : Nat) = 57608 + 1 by norm_num,
    extract_frame_step 57708 57608 f14400
      ((List.replicate 3 f14400).flatten ++ List.replicate 8 0) [] 0 false []
      (fun _ => rfl) f14400_spec.1 f14400_spec.2
      (by rw [List.length_append, List.length_replicate]; omega)]
  simp only [List.nil_append]
  have hchain := extract_frame_chain 57708 (List.replicate 3 f14400) 57605
    (List.replicate 8 0) f14400 []
    (by
      intro g hg
      rw [List.eq_of_mem_replicate hg]
      exact f14400_spec)
    (by rw [List.length_replicate]; omega)
  rw [List.length_replicate] at hchain
  rw [show (57608 : Nat) = 57605 + 3 by norm_num, hchain]
  rw [show f14400 ++ (List.replicate 3 f14400).flatten = c2run from
    c2run_decomp.symm]
  rw [show List.take 3 (List.replicate 8 (0 : Nat)) = [0, 0, 0] from by
    rw [List.take_replicate]
    decide]
  rw [show List.drop 3 (List.replicate 8 (0 : Nat)) = 0 :: List.replicate 4 0 from by
    rw [List.drop_replicate]
    rfl]
  rw [show (57605 : Nat) = 57604 + 1 by norm_num,
    extractLoop_step_invalid 57708 57604 c2run true (List.replicate 4 0) []
      (by decide)]
  simp only [if_true, List.drop_one, List.tail_cons, List.cons_append,
    List.nil_append]
  rw [show List.replicate 4 (0 : Nat) = 0 :: List.replicate 3 0 from rfl]
  rw [show (57604 : Nat) = 57603 + 1 by norm_num,
    extractLoop_step_invalid 57708 57603 c2run false (List.replicate 3 0) []
      (by decide)]
  simp only [Bool.false_eq_true, if_false, List.drop_one, List.tail_cons,
    List.cons_append, List.nil_append]
  rw [show flushRun 57708 (0 :: List.replicate 3 (0 : Nat) : List Nat).length
      c2run [] = [(c2run, 104)] from by
    rw [flushRun, if_pos (by rw [c2run_length]; decide), c2run_length]
    norm_num]
  have hsz := extract_skip_zeros 57708 3 57600 [] [(c2run, 104)]
  rw [List.append_nil] at hsz
  rw [show (57603 : Nat) = 57600 + 3 by norm_num, hsz]
  rw [show (57600 : Nat) = 57599 + 1 by norm_num, extractLoop_nil]
  simp only [Bool.false_eq_true, if_false, flushRun_nil]


/-! ### The claims -/

/-- C1: the spec asserts `deobfuscate` is total — it succeeds on every
buffer, including lengths 0 and 1, with zero swaps below 2 bytes.  The
code's loop bound `0..out.len() - 1` underflows `usize` on the empty
buffer and panics (modelled as `none`), so the claim fails there; on
one-byte buffers the call does succeed unchanged for every phase 0..3. -/
theorem claim_C1_deobfs_empty_panics :
    deobfs [] 0 = none ∧
    (deobfs [7] 0 = some [7] ∧ deobfs [7] 1 = some [7] ∧
     deobfs [7] 2 = some [7] ∧ deobfs [7] 3 = some [7]) := by
  decide

/-- C2 counterexample: on a buffer of 100 bytes of non-matching noise
followed by a 57600-byte run of valid frames (and 8 trailing noise bytes
so that the run is terminated and flushed before end-of-stream), the
single reported offset is 104, not 100 — the claim that the reported
offset equals the run's first byte position is false. -/
theorem claim_C2_counterexample :
    (extract_mp3 c2buf).map Prod.snd = [104] ∧
    (extract_mp3 c2buf).map Prod.snd ≠ [100] := by
  rw [extract_c2buf_eq]
  refine ⟨by simp, by simp⟩

/-- C2 amended: the start offset reported with each emitted run exceeds
the position of the run's first byte in the deobfuscated buffer by
exactly 4 (the three header-refill bytes plus the one look-ahead byte
consumed past the run before the flush): every emitted `(r, o)` has
`4 ≤ o` and `r` is the slice of the buffer starting at `o - 4`.  For the
100-noise example the reported offset is therefore 104. -/
theorem claim_C2_offset_is_start_plus_four :
    (∀ (s : List Nat) (p : List Nat × Nat), p ∈ extract_mp3 s →
      4 ≤ p.2 ∧ p.1 = (s.drop (p.2 - 4)).take p.1.length) ∧
    (extract_mp3 c2buf).map Prod.snd = [104] := by
  constructor
  · intro s p hp
    have h := (extract_mp3_ok s).1 p hp
    exact ⟨h.1, h.2.2.2⟩
  · rw [extract_c2buf_eq]
    simp

theorem claim_C2_offset_is_start_plus_four_witness :
    4 ≤ 104 ∧ c2run = (c2buf.drop (104 - 4)).take c2run.length :=
  claim_C2_offset_is_start_plus_four.1 c2buf (c2run, 104)
    (by rw [extract_c2buf_eq]; exact List.mem_singleton.mpr rfl)

/-- C3: the accept/threshold check is not applied on the exit paths of
the loop: a stream of exactly `50 * 1024 + 1` bytes of valid
back-to-back frames ending at end-of-stream is silently dropped (the
loop breaks at the header refill), so the extractor returns no runs at
all where the claim says the run is emitted. -/
theorem claim_C3_final_run_lost :
    c3stream.length = 50 * 1024 + 1 ∧ extract_mp3 c3stream = [] :=
  ⟨c3stream_length, extract_c3stream_eq⟩

/-- C4 counterexample: the claim asserts some buffer and phase in 0..3
whose double deobfuscation differs from the original; in fact whenever
both applications succeed the original buffer is always restored — the
swap pairs `(i, i+1)` with `i ≡ phase (mod 4)` are pairwise disjoint, so
the pass is an involution. -/
theorem claim_C4_counterexample :
    ¬ ∃ (b : List Nat) (p : Nat), p < 4 ∧
      ∃ x, deobfs b p = some x ∧ ∃ y, deobfs x p = some y ∧ y ≠ b := by
  rintro ⟨b, p, -, x, hx, y, hy, hne⟩
  have hb : b ≠ [] := by
    rintro rfl
    simp [deobfs_empty] at hx
  have h := deobfs_deobfs b p hb
  rw [hx, Option.some_bind, hy] at h
  exact hne (Option.some_inj.mp h)

/-- C4 amended: applying the deobfuscation transform twice with the same
phase restores every non-empty buffer exactly (on the empty buffer the
transform panics, see C1). -/
theorem claim_C4_double_deobfs_restores (b : List Nat) (p : Nat)
    (hb : b ≠ []) (_hp : p < 4) :
    (deobfs b p).bind (fun x => deobfs x p) = some b :=
  deobfs_deobfs b p hb

theorem claim_C4_double_deobfs_restores_witness :
    (deobfs [1, 2, 3, 4, 5, 6] 0).bind (fun x => deobfs x 0) =
      some [1, 2, 3, 4, 5, 6] :=
  claim_C4_double_deobfs_restores [1, 2, 3, 4, 5, 6] 0 (by decide) (by decide)

/-- C5: whenever `deobfs` produces an output (every non-empty buffer;
the empty buffer panics, see C1), the output has exactly the length of
the input, for every phase in 0..3. -/
theorem claim_C5_length_preserved (b : List Nat) (p : Nat) (x : List Nat)
    (_hp : p < 4) (h : deobfs b p = some x) : x.length = b.length :=
  deobfs_isSome_length h

theorem claim_C5_length_preserved_witness :
    ([2, 1, 3] : List Nat).length = ([1, 2, 3] : List Nat).length :=
  claim_C5_length_preserved [1, 2, 3] 0 [2, 1, 3] (by decide) (by decide)

/-- C6: a 4-byte header window (its big-endian value `n`) is treated as
a frame start by the loop (i.e. `checkHeader` succeeds) iff the top 11
bits are all ones, the version field (bits 20–19) is `0b11`, the layer
field (bits 18–17) is `0b01`, the bit-rate index (bits 15–12) lies in
1..14, the sample-rate index (bits 11–10) lies in 0..2, and the emphasis
field (bits 1–0) is not `0b10`; in particular, whenever the top 11 bits
are not all ones the window is rejected, whatever the remaining bits. -/
theorem claim_C6_header_validation :
    (∀ n : Nat, (checkHeader n).isSome = true ↔
      (n / 2 ^ 21 % 2 ^ 11 = 2047 ∧ n / 2 ^ 19 % 4 = 3 ∧ n / 2 ^ 17 % 4 = 1 ∧
       (1 ≤ n / 2 ^ 12 % 16 ∧ n / 2 ^ 12 % 16 ≤ 14) ∧ n / 2 ^ 10 % 4 ≤ 2 ∧
       n % 4 ≠ 2)) ∧
    (∀ n : Nat, n / 2 ^ 21 % 2 ^ 11 ≠ 2047 → checkHeader n = none) := by
  refine ⟨checkHeader_isSome_iff, fun n hn => ?_⟩
  rcases hck : checkHeader n with _ | flen
  · rfl
  · exact absurd ((checkHeader_isSome_iff n).mp (by rw [hck]; rfl)).1 hn

theorem claim_C6_header_validation_witness :
    checkHeader 0x12345678 = none :=
  claim_C6_header_validation.2 0x12345678 (by decide)

/-- C7: the bit-rate lookup returns the ascending table
32000..320000 bit/s on indices 1..14 and nothing on 0 and 15; the
sample-rate lookup returns 44100, 48000 and 3200 Hz (exactly 3200, not
32000) on indices 0..2 and nothing on 3. -/
theorem claim_C7_lookup_tables :
    (get_bit_rate 0 = none ∧ get_bit_rate 1 = some 32000 ∧
     get_bit_rate 2 = some 40000 ∧ get_bit_rate 3 = some 48000 ∧
     get_bit_rate 4 = some 56000 ∧ get_bit_rate 5 = some 64000 ∧
     get_bit_rate 6 = some 80000 ∧ get_bit_rate 7 = some 96000 ∧
     get_bit_rate 8 = some 112000 ∧ get_bit_rate 9 = some 128000 ∧
     get_bit_rate 10 = some 160000 ∧ get_bit_rate 11 = some 192000 ∧
     get_bit_rate 12 = some 224000 ∧ get_bit_rate 13 = some 256000 ∧
     get_bit_rate 14 = some 320000 ∧ get_bit_rate 15 = none) ∧
    (get_sample_rate 0 = some 44100 ∧ get_sample_rate 1 = some 48000 ∧
     get_sample_rate 2 = some 3200 ∧ get_sample_rate 3 = none) ∧
    List.Chain' (· < ·) MP3_BIT_RATES := by
  refine ⟨by decide, by decide, ?_⟩
  rw [MP3_BIT_RATES]
  simp only [List.chain'_cons, List.chain'_singleton, and_true]
  norm_num

/-- C8: every validated header yields frame length
`floor(144 × bitrate / samplerate)` plus 1 when the padding bit is set
(exact natural-number arithmetic, as in the `u32` code, which cannot
overflow for table values); concretely the header `0xFFFB9000`
(bit rate 128000, sample rate 44100, no padding) yields 417 and its
padded variant `0xFFFB9200` yields 418. -/
theorem claim_C8_frame_length :
    (∀ n flen, checkHeader n = some flen →
      ∃ br sr, get_bit_rate ((n &&& 0x0000F000) >>> 12) = some br ∧
        get_sample_rate ((n &&& 0x00000C00) >>> 10) = some sr ∧
        flen = 144 * br / sr +
          (if (n &&& 0x00000200) >>> 9 = 1 then 1 else 0)) ∧
    checkHeader 0xFFFB9000 = some 417 ∧ checkHeader 0xFFFB9200 = some 418 := by
  exact ⟨fun n flen h => checkHeader_some_spec h, by decide, by decide⟩

theorem claim_C8_frame_length_witness :
    ∃ br sr, get_bit_rate ((0xFFFB9000 &&& 0x0000F000) >>> 12) = some br ∧
      get_sample_rate ((0xFFFB9000 &&& 0x00000C00) >>> 10) = some sr ∧
      417 = 144 * br / sr +
        (if (0xFFFB9000 &&& 0x00000200) >>> 9 = 1 then 1 else 0) :=
  claim_C8_frame_length.1 0xFFFB9000 417 (by decide)

/-- C9: the phase argument is not range-checked; for every phase ≥ 4 no
index satisfies `i % 4 = phase`, so `deobfs` returns every non-empty
buffer unchanged. -/
theorem claim_C9_identity_above_phase_range (b : List Nat) (p : Nat)
    (hb : b ≠ []) (hp : 4 ≤ p) : deobfs b p = some b := by
  have hlen : b.length ≠ 0 := by simpa using hb
  rw [deobfs, if_neg hlen, foldl_no_swap]
  intro i _
  omega

theorem claim_C9_identity_above_phase_range_witness :
    deobfs [1, 2] 4 = some [1, 2] :=
  claim_C9_identity_above_phase_range [1, 2] 4 (by decide) (by decide)

/-- C10: for every input buffer, every emitted run is longer than the
50 KiB threshold and its bytes are one contiguous substring of the input
(the slice starting at reported offset minus 4); the runs appear in
strictly increasing offset order and draw on pairwise disjoint,
left-to-right input intervals. -/
theorem claim_C10_extraction_invariants (s : List Nat) :
    (∀ p ∈ extract_mp3 s, THRESHOLD < p.1.length ∧
      p.1 = (s.drop (p.2 - 4)).take p.1.length ∧
      ∃ pre post, s = pre ++ p.1 ++ post ∧ pre.length = p.2 - 4) ∧
    List.Chain' (fun a b : List Nat × Nat => a.2 + a.1.length ≤ b.2)
      (extract_mp3 s) ∧
    List.Chain' (fun a b : List Nat × Nat => a.2 < b.2) (extract_mp3 s) := by
  obtain ⟨hmem, hchain⟩ := extract_mp3_ok s
  have hstrict : ∀ (l : List (List Nat × Nat)),
      (∀ p ∈ l, THRESHOLD < p.1.length) →
      List.Chain' (fun a b : List Nat × Nat => a.2 + a.1.length ≤ b.2) l →
      List.Chain' (fun a b : List Nat × Nat => a.2 < b.2) l := by
    intro l
    induction l with
    | nil => intro _ _; exact List.chain'_nil
    | cons a l ihl =>
      intro hm hc
      rcases l with _ | ⟨b, l'⟩
      · exact List.chain'_singleton _
      · rw [List.chain'_cons] at hc ⊢
        have hta := hm a (by simp)
        exact ⟨by omega, ihl (fun q hq => hm q (by simp [hq])) hc.2⟩
  refine ⟨?_, hchain, hstrict _ (fun p hp => (hmem p hp).2.1) hchain⟩
  intro p hp
  obtain ⟨h4, hth, hle, hsl⟩ := hmem p hp
  refine ⟨hth, hsl, s.take (p.2 - 4), s.drop (p.2 - 4 + p.1.length), ?_, ?_⟩
  · conv_lhs => rw [← List.take_append_drop (p.2 - 4) s]
    rw [List.append_assoc]
    congr 1
    conv_lhs => rw [← List.take_append_drop p.1.length (s.drop (p.2 - 4))]
    rw [← hsl, List.drop_drop]
  · rw [List.length_take]
    omega

theorem claim_C10_extraction_invariants_witness :
    THRESHOLD < c2run.length ∧
    c2run = (c2buf.drop (104 - 4)).take c2run.length ∧
    ∃ pre post, c2buf = pre ++ c2run ++ post ∧ pre.length = 104 - 4 :=
  (claim_C10_extraction_invariants c2buf).1 (c2run, 104)
    (by rw [extract_c2buf_eq]; exact List.mem_singleton.mpr rfl)

end AmpExtract
